import Mathlib

/-!
# Verification of the ML-DSA field/polynomial arithmetic core (`src/ml-dsa/src/algebra.rs`)

Shallow embedding of the Rust source into Lean. Machine integers are modelled
as `Nat` with explicit truncation: a `u32` cast is `% 2^32`, a wrapping `u64`
subtraction `x - y` is `(x + 2^64 - y) % 2^64` (release-mode semantics;
`y ≤ 2^64` holds at the single site where it is used), and `>> 32` on `u64`
is division by `2^32`.
-/

namespace MlDsa

/-- `2^32`, the modulus of the `u32` type. -/
def U32_MOD : Nat := 4294967296

/-- `2^64`, the modulus of the `u64` type. -/
def U64_MOD : Nat := 18446744073709551616

/-- `pub struct FieldElement(pub Integer);` with `Integer = u32`.
The stored machine word is modelled as a `Nat`; theorems carry the
`val < 2^32` or canonical `val < Q` bound where it matters. -/
structure FieldElement where
  val : Nat
deriving DecidableEq, Repr

namespace FieldElement

/-- `pub const Q: u32 = 8380417;` -/
def Q : Nat := 8380417

/-- `const QINV: u64 = 58728449;` -/
def QINV : Nat := 58728449

/-- `fn small_reduce(x: u32) -> u32 { let mask = (x > Self::Q) as u32; x - (mask * Self::Q) }`
The `u32` subtraction cannot wrap: when `mask = 1` we have `Q < x`, so `Nat`
truncated subtraction computes the same value the machine does. -/
def small_reduce (x : Nat) : Nat :=
  let mask : Nat := if Q < x then 1 else 0
  x - mask * Q

/-- `fn montgomery_mul(a: Self, b: Self) -> Self`:
`let a = u64::from(a.0) * u64::from(b.0);`
`let t = (u64::from(a as u32) * Self::QINV) as u32;`
`let r = (a - u64::from(t) * Self::Q64) >> 32;`
`Self(Self::small_reduce(r as u32))`.
The `u64` subtraction wraps modulo `2^64` (release semantics), modelled as
`(p + 2^64 - t*Q) % 2^64`; this is the machine value whenever
`t * Q ≤ 2^64`, which always holds since `t < 2^32` and `Q < 2^23`. -/
def montgomery_mul (a b : FieldElement) : FieldElement :=
  let p := a.val * b.val
  let t := (p % U32_MOD * QINV) % U32_MOD
  let r := (p + U64_MOD - t * Q) % U64_MOD / U32_MOD
  ⟨small_reduce (r % U32_MOD)⟩

/-- `impl Add`: `Self(Self::small_reduce(self.0 + rhs.0))` — the `u32`
addition wraps modulo `2^32`. -/
def add (a b : FieldElement) : FieldElement :=
  ⟨small_reduce ((a.val + b.val) % U32_MOD)⟩

/-- `impl Sub`: `Self(Self::small_reduce(self.0 + Self::Q - rhs.0))` — each
`u32` step wraps modulo `2^32`; the final subtraction is modelled with the
`+ 2^32` wrap form, exact for any `rhs.0 < 2^32`. -/
def sub (a b : FieldElement) : FieldElement :=
  ⟨small_reduce (((a.val + Q) % U32_MOD + U32_MOD - b.val) % U32_MOD)⟩

/-- `impl Mul`: `Self::montgomery_mul(self, rhs)`. -/
def mul (a b : FieldElement) : FieldElement :=
  montgomery_mul a b

/-- The condition under which the `u64` expression `a - u64::from(t) * Self::Q64`
inside `montgomery_mul` underflows (wraps in release mode, panics in debug). -/
def mont_sub_underflows (a b : FieldElement) : Prop :=
  let p := a.val * b.val
  let t := (p % U32_MOD * QINV) % U32_MOD
  p < t * Q

instance (a b : FieldElement) : Decidable (mont_sub_underflows a b) := by
  unfold mont_sub_underflows
  exact Nat.decLt _ _

end FieldElement

/-- `pub struct Polynomial(pub Array<FieldElement, U256>);` — a fixed-length
sequence of exactly 256 coefficients, modelled as a list with a length fact. -/
structure Polynomial where
  coeffs : List FieldElement
  len_eq : coeffs.length = 256

namespace Polynomial

/-- Coefficient access `p.0[i]`. -/
def coeff (p : Polynomial) (i : Fin 256) : FieldElement :=
  p.coeffs.get (Fin.cast p.len_eq.symm i)

/-- `impl Add<&Polynomial> for &Polynomial`: zip the two coefficient
sequences and add pointwise with `FieldElement` addition, collecting the 256
results. -/
def add (p q : Polynomial) : Polynomial :=
  ⟨List.zipWith FieldElement.add p.coeffs q.coeffs, by
    rw [List.length_zipWith, p.len_eq, q.len_eq]; rfl⟩

/-- `impl Sub<&Polynomial> for &Polynomial`: pointwise `FieldElement`
subtraction over the zipped coefficient sequences. -/
def sub (p q : Polynomial) : Polynomial :=
  ⟨List.zipWith FieldElement.sub p.coeffs q.coeffs, by
    rw [List.length_zipWith, p.len_eq, q.len_eq]; rfl⟩

/-- `impl Mul<&Polynomial> for FieldElement`: map `s * ·` over the
coefficients. -/
def scalar_mul (s : FieldElement) (p : Polynomial) : Polynomial :=
  ⟨p.coeffs.map (fun x => FieldElement.mul s x), by
    rw [List.length_map, p.len_eq]⟩

end Polynomial

end MlDsa

namespace MlDsa

/-- Claim C1: the claim says `FieldElement::mul` (montgomery_mul) agrees with the
naive reference `(a * b) mod q` for all canonical inputs. It does not: already at
the canonical pair `a = b = 1` the code stores `4286472287` (the wrapped result of
the underflowing `u64` subtraction, shifted and once-reduced), while the naive
reference gives `1`. -/
theorem C1_mul_disagrees_with_naive_reference :
    (FieldElement.mul ⟨1⟩ ⟨1⟩).val = 4286472287 ∧
    (1 * 1) % FieldElement.Q = 1 ∧
    (FieldElement.mul ⟨1⟩ ⟨1⟩).val ≠ (1 * 1) % FieldElement.Q := by
  decide

/-- Claim C2: the claim says every public operation returns a value in `[0, q)`.
It does not: `small_reduce` uses the strict comparison `x > Q`, so the canonical
pair `(1, q-1)` makes `Add` return the value `q` itself, which is outside `[0, q)`. -/
theorem C2_add_result_escapes_canonical_range :
    (1 : Nat) < FieldElement.Q ∧ (8380416 : Nat) < FieldElement.Q ∧
    (FieldElement.add ⟨1⟩ ⟨8380416⟩).val = FieldElement.Q ∧
    ¬ (FieldElement.add ⟨1⟩ ⟨8380416⟩).val < FieldElement.Q := by
  decide

/-- Claim C3: the claim says `Add(a, 0) = a` and `Sub(a, a) = 0` for canonical `a`.
The first identity holds at `a = 5`, but `Sub(5, 5)` computes
`small_reduce(5 + q - 5) = small_reduce(q) = q` (the strict `x > Q` mask leaves
`q` unreduced), so `Sub(a, a)` is `FieldElement(q)`, not `FieldElement(0)`. -/
theorem C3_sub_self_is_q_not_zero :
    FieldElement.add ⟨5⟩ ⟨0⟩ = ⟨5⟩ ∧
    FieldElement.sub ⟨5⟩ ⟨5⟩ = ⟨8380417⟩ ∧
    FieldElement.sub ⟨5⟩ ⟨5⟩ ≠ ⟨0⟩ := by
  decide

/-- Claim C4: the claim says `Add(a, b) = (a + b) mod q` for all canonical inputs.
The concrete scenario `5 + (q-3) = 2` does hold, but at the canonical pair
`(2, q-2)` the sum is exactly `q` and the strict mask in `small_reduce` leaves it
unreduced: the code returns value `q` where `(2 + (q-2)) mod q = 0`. -/
theorem C4_add_is_not_mod_q_when_sum_equals_q :
    FieldElement.add ⟨5⟩ ⟨8380414⟩ = ⟨2⟩ ∧
    (FieldElement.add ⟨2⟩ ⟨8380415⟩).val = 8380417 ∧
    (2 + 8380415) % FieldElement.Q = 0 ∧
    (FieldElement.add ⟨2⟩ ⟨8380415⟩).val ≠ (2 + 8380415) % FieldElement.Q := by
  decide

/-- Claim C5: the claim says `Sub(a, b) = (a - b) mod q` for all canonical inputs.
The boundary case `Sub(0, q-1) = 1` does hold (no underflow on the subtraction
path), but at any equal pair, e.g. `a = b = 7`, the intermediate `a + q - b`
equals exactly `q` and the strict mask leaves it unreduced: the code returns
value `q` where `(7 - 7) mod q = 0`. -/
theorem C5_sub_is_not_mod_q_at_equal_operands :
    FieldElement.sub ⟨0⟩ ⟨8380416⟩ = ⟨1⟩ ∧
    (FieldElement.sub ⟨7⟩ ⟨7⟩).val = 8380417 ∧
    (FieldElement.sub ⟨7⟩ ⟨7⟩).val ≠ (7 + FieldElement.Q - 7) % FieldElement.Q := by
  decide

/-- Claim C6 (counterexample): the claim says `q * QINV ≡ -1 (mod 2^32)`, i.e.
that the product reduces to `2^32 - 1`. It reduces to `1` instead, so the claim
as stated is false. -/
theorem C6_qinv_is_not_inverse_of_neg_q :
    (FieldElement.Q * FieldElement.QINV) % U32_MOD ≠ U32_MOD - 1 := by
  decide

/-- Claim C6 (amended): `QINV = 58728449` is the modular inverse of `+q`
modulo `2^32`: `8380417 * 58728449 ≡ 1 (mod 2^32)`. -/
theorem C6_qinv_is_inverse_of_q :
    (FieldElement.Q * FieldElement.QINV) % U32_MOD = 1 := by
  decide

/-- Claim C7: the claim says the `u64` subtraction `a*b - t*Q` inside
`montgomery_mul` never underflows for canonical inputs. At the canonical pair
`a = b = 1` the minuend is `1` while the subtrahend `t * Q` is
`58728449 * 8380417 = 492168892383233`, so the subtraction underflows (wrapping
in release mode, panicking in debug mode). -/
theorem C7_montgomery_sub_underflows_on_canonical_input :
    FieldElement.mont_sub_underflows ⟨1⟩ ⟨1⟩ ∧
    (1 : Nat) < FieldElement.Q ∧
    (1 * 1 % U32_MOD * FieldElement.QINV) % U32_MOD * FieldElement.Q = 492168892383233 := by
  decide

/-- Claim C8: the three polynomial operations act pointwise with the
corresponding `FieldElement` operation at every index `i < 256`, with no
cross-index interaction, and each result again has exactly 256 coefficients. -/
theorem C8_polynomial_ops_are_pointwise (p q : Polynomial) (s : FieldElement) (i : Fin 256) :
    (Polynomial.add p q).coeff i = FieldElement.add (p.coeff i) (q.coeff i) ∧
    (Polynomial.sub p q).coeff i = FieldElement.sub (p.coeff i) (q.coeff i) ∧
    (Polynomial.scalar_mul s p).coeff i = FieldElement.mul s (p.coeff i) ∧
    (Polynomial.add p q).coeffs.length = 256 ∧
    (Polynomial.sub p q).coeffs.length = 256 ∧
    (Polynomial.scalar_mul s p).coeffs.length = 256 := by
  refine ⟨?_, ?_, ?_, (Polynomial.add p q).len_eq, (Polynomial.sub p q).len_eq,
    (Polynomial.scalar_mul s p).len_eq⟩ <;>
    simp [Polynomial.coeff, Polynomial.add, Polynomial.sub, Polynomial.scalar_mul,
      List.get_eq_getElem, List.getElem_zipWith, List.getElem_map]

/-- Claim C10: for every `u32` value `a`, `Mul(a, 0) = 0` and `Mul(0, a) = 0`:
the double-width product is `0`, hence the factor `t` is `0`, the wrapped
difference is `0`, the shifted remainder is `0`, and `small_reduce 0 = 0` —
no canonical-range precondition is needed. -/
theorem C10_mul_zero_annihilates (a : FieldElement) (_h : a.val < U32_MOD) :
    FieldElement.mul a ⟨0⟩ = ⟨0⟩ ∧ FieldElement.mul ⟨0⟩ a = ⟨0⟩ := by
  constructor <;>
    simp [FieldElement.mul, FieldElement.montgomery_mul, FieldElement.small_reduce,
      U32_MOD, U64_MOD, FieldElement.QINV, FieldElement.Q]

/-- Witness for C10 at the largest `u32` value `a = 2^32 - 1`. -/
theorem C10_mul_zero_annihilates_witness :
    (4294967295 : Nat) < U32_MOD ∧
    (FieldElement.mul ⟨4294967295⟩ ⟨0⟩ = ⟨0⟩ ∧ FieldElement.mul ⟨0⟩ ⟨4294967295⟩ = ⟨0⟩) :=
  ⟨by decide, C10_mul_zero_annihilates ⟨4294967295⟩ (by decide)⟩

end MlDsa
